import Mathlib

/-!
Verification development for the lucca_faces_autoplay_2 repository
(src/main.rs, src/player.rs).

The Rust program is shallowly embedded: HTTP traffic is represented by
environment records holding, for each request the code issues, the status
code of the response and the parse result of its body (a parse or transport
failure is `Option.none`).  The `reqwest` / `serde` / `scraper` / `ron` /
`ahash` crates are external; they are modelled at the granularity the code
uses them: JSON bodies arrive already parsed (or failed), the HTML token
extraction is modelled over the list of input elements of the login page,
the ahash fingerprint is an opaque function `List Nat → Nat` supplied by the
environment, and the RON serialization of `HashMap<u64, String>` is modelled
by an executable character-level encoder and parser below.

Rust `Result` propagation via the question-mark operator becomes the
`failed` constructor of `RunResult`; a Rust `panic!` (from `.unwrap()`)
becomes `panicked`.  Each operation additionally returns the ordered list of
HTTP requests it issued, so that statements such as "no POST is attempted"
are expressible.
-/

/-- Embeds struct Suggestion (player.rs lines 43-47): id + display name. -/
structure Suggestion where
  id : Nat
  value : String
  deriving DecidableEq

/-- Embeds struct Question (player.rs lines 35-41).  The Rust field has type
Suggestion; 4]`: deserialization only ever produces four suggestions, which
theorems state as a `length = 4` hypothesis where it matters. -/
structure Question where
  id : Nat
  imageUrl : String
  suggestions : List Suggestion
  deriving DecidableEq

/-- Embeds struct GuessResponse (player.rs lines 49-56). -/
structure GuessResponse where
  score : Int
  isCorrect : Bool
  correctSuggestionId : Nat
  deriving DecidableEq

/-- Embeds struct Game (player.rs lines 28-33). -/
structure Game where
  id : String
  nbQuestions : Nat
  deriving DecidableEq

/-- Error taxonomy of the program: anyhow errors raised explicitly by the
source, plus `requestFailed` for transport/deserialization failures
propagated by the question-mark operator. -/
inductive PlayerError where
  | httpError (status : Nat)
  | requestFailed
  | tokenElementNotFound
  | tokenValueNotFound
  | loginFailed
  | storageCorrupt
  | storageWrite
  deriving DecidableEq

/-- Outcome of running a piece of the program: a Rust panic (from
`.unwrap()`), an error return (`Err`), or a normal value. -/
inductive RunResult (α : Type) where
  | panicked
  | failed (e : PlayerError)
  | ok (a : α)
  deriving DecidableEq

/-- An HTTP request issued by the program, in the order issued. -/
inductive Req where
  | getLogin
  | postLogin
  | postStartGame (training : Bool)
  | postNextQuestion (gameId : String)
  | getImage (url : String)
  | postGuess (questionId : Nat) (suggestionId : Nat)
  deriving DecidableEq

/-- A server response: HTTP status code plus the parse result of the body
(`none` = the body failed to deserialize, or the transfer failed). -/
structure Response (α : Type) where
  status : Nat
  body : Option α
  deriving DecidableEq

/-- Embeds `reqwest::StatusCode::is_success` (2xx). -/
def isSuccessStatus (s : Nat) : Bool :=
  decide (200 ≤ s) && decide (s < 300)

/-! ### The answer store (`HashMap<u64, String>` of player.rs line 25)

The map is modelled as an association list with unique keys; `storeGet` and
`storePut` embed `HashMap::get` and `HashMap::insert`. -/

abbrev AnswerStore := List (Nat × String)

/-- Embeds `HashMap::get`: the value of the unique entry with the given key. -/
def storeGet (m : AnswerStore) (k : Nat) : Option String :=
  match m with
  | [] => none
  | p :: rest => if p.1 = k then some p.2 else storeGet rest k

/-- Embeds `HashMap::insert`: overwrite the entry if the key is present,
otherwise add it. -/
def storePut (m : AnswerStore) (k : Nat) (v : String) : AnswerStore :=
  match m with
  | [] => [(k, v)]
  | p :: rest => if p.1 = k then (k, v) :: rest else p :: storePut rest k v

/-- Builds a map by repeated insertion, as `serde` deserialization of a
`HashMap` does. -/
def storeOfList (l : List (Nat × String)) : AnswerStore :=
  l.foldl (fun m p => storePut m p.1 p.2) []

/-! ### RON serialization of the store

`ron::to_string` on a `HashMap<u64, String>` prints a compact map such as
`\x7b1:"a",2:"b"\x7d`; `ron::from_str` parses it back.  Both directions are
modelled character by character.  The encoder escapes the quote and
backslash characters inside string values (control-character escapes, which
the encoder never has to emit for the values this program stores, are
elided). -/

/-- Decimal digits of `n`, most significant first, prepended to `acc`.
Fuel-based so that it reduces in the kernel; `fuel > n` suffices. -/
def natDigitsAux : Nat → Nat → List Char → List Char
  | 0, _, acc => acc
  | fuel + 1, n, acc =>
    if n < 10 then Char.ofNat (48 + n % 10) :: acc
    else natDigitsAux fuel (n / 10) (Char.ofNat (48 + n % 10) :: acc)

/-- Decimal representation of a natural number, as RON prints a `u64` key. -/
def natDigits (n : Nat) : List Char :=
  natDigitsAux (n + 1) n []

/-- Parses a maximal run of leading decimal digits, folding them onto the
accumulator, and returns the value together with the unread remainder. -/
def parseNatAux : List Char → Nat → Nat × List Char
  | [], acc => (acc, [])
  | c :: cs, acc =>
    if c.isDigit then parseNatAux cs (acc * 10 + (c.toNat - 48))
    else (acc, c :: cs)

/-- RON escaping of one character inside a double-quoted string. -/
def escapeChar (c : Char) : List Char :=
  if c = '"' ∨ c = '\\' then ['\\', c] else [c]

/-- RON escaping of a whole string body. -/
def escapeList : List Char → List Char
  | [] => []
  | c :: cs => escapeChar c ++ escapeList cs

/-- Parses a RON string body (the opening quote already consumed) up to the
closing quote; returns the unescaped content and the remainder. -/
def parseString : List Char → Option (List Char × List Char)
  | [] => none
  | [c] => if c = '"' then some ([], []) else none
  | c :: d :: cs2 =>
    if c = '"' then some ([], d :: cs2)
    else if c = '\\' then
      if d = '"' ∨ d = '\\' then (parseString cs2).map (fun p => (d :: p.1, p.2))
      else none
    else (parseString (d :: cs2)).map (fun p => (c :: p.1, p.2))

/-- One serialized map entry: `key:"value"`. -/
def encodeEntry (kv : Nat × String) : List Char :=
  natDigits kv.1 ++ ':' :: '"' :: (escapeList kv.2.data ++ ['"'])

/-- Comma-separated concatenation of serialized entries. -/
def joinComma : List (List Char) → List Char
  | [] => []
  | [e] => e
  | e :: e2 :: es => e ++ ',' :: joinComma (e2 :: es)

/-- Parses one `key:"value"` entry, returning it and the remainder. -/
def parseEntry (cs : List Char) : Option ((Nat × String) × List Char) :=
  match cs with
  | [] => none
  | c :: rest =>
    if c.isDigit then
      match parseNatAux (c :: rest) 0 with
      | (n, ':' :: '"' :: r2) =>
        match parseString r2 with
        | some (content, r3) => some ((n, String.mk content), r3)
        | none => none
      | _ => none
    else none

/-- Parses the comma-separated entries of a nonempty RON map, expecting the
closing brace to end the input.  Fuelled by the input length. -/
def parseEntries : Nat → List Char → Option (List (Nat × String))
  | 0, _ => none
  | fuel + 1, cs =>
    match parseEntry cs with
    | none => none
    | some (kv, rest) =>
      match rest with
      | ['}'] => some [kv]
      | ',' :: rest2 => (parseEntries fuel rest2).map (fun l => kv :: l)
      | _ => none

/-- Embeds `ron::to_string(&self.hash_map)` (character list form). -/
def ronEncodeChars (m : List (Nat × String)) : List Char :=
  '{' :: (joinComma (m.map encodeEntry) ++ ['}'])

/-- Embeds `ron::to_string(&self.hash_map)`. -/
def ronEncode (m : List (Nat × String)) : String :=
  String.mk (ronEncodeChars m)

/-- Embeds `ron::from_str` at type `HashMap<u64, String>`: the entry list in
textual order (the map itself is rebuilt by `storeOfList`). -/
def ronDecode (s : String) : Option (List (Nat × String)) :=
  match s.data with
  | '{' :: rest => if rest = ['}'] then some [] else parseEntries rest.length rest
  | _ => none

/-! ### Persisted storage and the player -/

/-- State of the `data` file at the fixed relative path (player.rs lines
79, 94, 105): `none` = the file does not exist. -/
structure FsState where
  file : Option String
  deriving DecidableEq

/-- Failure schedule for one call of `save_hash_map`: whether
`File::create` fails, whether `write_all` fails, and, in the latter case,
how many characters were written before the failure. -/
structure SaveEnv where
  createFails : Bool
  writeFails : Bool
  writtenBytes : Nat
  deriving DecidableEq

/-- Embeds struct Player (player.rs lines 22-26).  The reqwest client and
the parsed base URL carry no game-visible state in this model; the training
flag of PlayerOptions is kept because it selects the start-game endpoint. -/
structure Player where
  hashMap : AnswerStore
  training : Bool
  deriving DecidableEq

/-- Embeds the store-loading logic shared verbatim by `Player::new`
(player.rs lines 79-84) and `Player::reload_hash_map` (lines 93-102):
if the file is absent the store is empty, otherwise its contents are
RON-parsed (a parse failure propagating as an error).  Reading never
writes, so the file state is returned unchanged. -/
def loadStore (fs : FsState) : RunResult AnswerStore × FsState :=
  match fs.file with
  | none => (.ok [], fs)
  | some s =>
    match ronDecode s with
    | none => (.failed .storageCorrupt, fs)
    | some l => (.ok (storeOfList l), fs)

/-- Embeds `Player::new` (player.rs lines 69-91) at its store-loading core. -/
def Player.new (training : Bool) (fs : FsState) : RunResult Player × FsState :=
  match loadStore fs with
  | (.ok m, fs2) => (.ok ⟨m, training⟩, fs2)
  | (.failed e, fs2) => (.failed e, fs2)
  | (.panicked, fs2) => (.panicked, fs2)

/-- Embeds `Player::reload_hash_map` (player.rs lines 93-102). -/
def Player.reload_hash_map (p : Player) (fs : FsState) : RunResult Player × FsState :=
  match loadStore fs with
  | (.ok m, fs2) => (.ok ⟨m, p.training⟩, fs2)
  | (.failed e, fs2) => (.failed e, fs2)
  | (.panicked, fs2) => (.panicked, fs2)

/-- Embeds `Player::save_hash_map` (player.rs lines 104-112):
`File::create` truncates the file to empty, then `write_all` writes the RON
serialization of the current table.  If `File::create` itself fails the
file is untouched; if `write_all` fails after a successful create, the file
holds whatever was written before the failure. -/
def Player.save_hash_map (p : Player) (env : SaveEnv) (fs : FsState) :
    RunResult Unit × FsState :=
  if env.createFails then (.failed .storageWrite, fs)
  else if env.writeFails then
    (.failed .storageWrite, ⟨some (String.mk ((ronEncodeChars p.hashMap).take env.writtenBytes))⟩)
  else (.ok (), ⟨some (ronEncode p.hashMap)⟩)

/-! ### Login -/

/-- An `input` element of the login page, with its `name` and optional
`value` attributes. -/
structure InputElement where
  name : String
  value : Option String
  deriving DecidableEq

/-- The login page HTML, abstracted to its input elements in document
order (all the selector of player.rs line 127 can observe). -/
structure LoginPage where
  inputs : List InputElement
  deriving DecidableEq

/-- Environment of one `Player::login` call. -/
structure LoginEnv where
  getResponse : Response LoginPage
  postResponse : Response Unit
  deriving DecidableEq

/-- Name of the hidden CSRF input field (player.rs line 127). -/
def tokenField : String := "__RequestVerificationToken"

/-- Embeds `Player::login` (player.rs lines 114-149): GET the login page,
fail on non-success status, select the first input named
`__RequestVerificationToken` and read its value attribute (failing with the
respective token errors), then POST the credential form and judge success
by HTTP status alone.  `login` takes `&self`, so the player state is
returned unchanged on every path. -/
def Player.login (p : Player) (_username _password : String) (env : LoginEnv) :
    RunResult Unit × List Req × Player :=
  if isSuccessStatus env.getResponse.status then
    match env.getResponse.body with
    | none => (.failed .requestFailed, [.getLogin], p)
    | some page =>
      match (page.inputs.filter (fun i => i.name == tokenField)).head? with
      | none => (.failed .tokenElementNotFound, [.getLogin], p)
      | some el =>
        match el.value with
        | none => (.failed .tokenValueNotFound, [.getLogin], p)
        | some _ =>
          if isSuccessStatus env.postResponse.status then
            (.ok (), [.getLogin, .postLogin], p)
          else (.failed .loginFailed, [.getLogin, .postLogin], p)
  else (.failed (.httpError env.getResponse.status), [.getLogin], p)

/-! ### Starting a game -/

/-- Environment of one `Player::start_game` call. -/
structure StartGameEnv where
  response : Response Game
  deriving DecidableEq

/-- Embeds `Player::start_game` (player.rs lines 151-182): POST to the
games endpoint (the training variant when the training flag is set), fail
with the status error on non-success status, then parse the Game. -/
def Player.start_game (p : Player) (env : StartGameEnv) :
    RunResult Game × List Req × Player :=
  if isSuccessStatus env.response.status then
    match env.response.body with
    | none => (.failed .requestFailed, [.postStartGame p.training], p)
    | some g => (.ok g, [.postStartGame p.training], p)
  else (.failed (.httpError env.response.status), [.postStartGame p.training], p)

/-! ### Playing one question -/

/-- Environment of one `Player::guess` call: the fingerprint function
(`HASHER.hash_one`, an external seeded hash, player.rs lines 61-66 and 203)
and the three server responses the call consumes.  Note that `guess` and
`respond` never read the status fields. -/
structure GuessEnv where
  hashOne : List Nat → Nat
  nextResponse : Response Question
  imageResponse : Response (List Nat)
  guessResponse : Response GuessResponse

/-- Embeds the suggestion selection of player.rs lines 204-212: if the
fingerprint is in the store, the first suggestion whose name equals the
stored answer (`.filter(..).next()`), else the first suggestion
(`.first()`); `none` corresponds to the `.unwrap()` panicking. -/
def selectSuggestion (hashMap : AnswerStore) (imageHash : Nat) (question : Question) :
    Option Suggestion :=
  match storeGet hashMap imageHash with
  | some name => (question.suggestions.filter (fun s => s.value == name)).head?
  | none => question.suggestions.head?

/-- Embeds the ground-truth determination of player.rs lines 215-223: the
guessed suggestion when the feedback says correct, else the first
suggestion whose id equals the declared correct id; `none` corresponds to
the `.unwrap()` panicking. -/
def correctSuggestion (question : Question) (suggestion : Suggestion)
    (resp : GuessResponse) : Option Suggestion :=
  match resp.isCorrect with
  | true => some suggestion
  | false => (question.suggestions.filter (fun s => s.id == resp.correctSuggestionId)).head?

/-- Embeds `Player::respond` (player.rs lines 232-252): POST the guess and
parse the feedback.  The HTTP status of the response is never checked. -/
def Player.respond (_p : Player) (_game : Game) (question : Question)
    (suggestion : Suggestion) (env : GuessEnv) : RunResult GuessResponse × List Req :=
  match env.guessResponse.body with
  | none => (.failed .requestFailed, [.postGuess question.id suggestion.id])
  | some r => (.ok r, [.postGuess question.id suggestion.id])

/-- Embeds `Player::guess` (player.rs lines 184-230): POST for the next
question (status unchecked, body parsed), GET the first kilobyte of the
image, fingerprint it, select a suggestion from the store (cold-start:
first suggestion), submit it via `respond`, determine the ground-truth
correct suggestion from the feedback, and unconditionally insert
fingerprint ↦ correct name into the store. -/
def Player.guess (p : Player) (game : Game) (env : GuessEnv) :
    RunResult Int × List Req × Player :=
  match env.nextResponse.body with
  | none => (.failed .requestFailed, [.postNextQuestion game.id], p)
  | some question =>
    match env.imageResponse.body with
    | none =>
      (.failed .requestFailed, [.postNextQuestion game.id, .getImage question.imageUrl], p)
    | some image =>
      let imageHash := env.hashOne image
      match selectSuggestion p.hashMap imageHash question with
      | none => (.panicked, [.postNextQuestion game.id, .getImage question.imageUrl], p)
      | some suggestion =>
        match Player.respond p game question suggestion env with
        | (.failed e, tr) =>
          (.failed e, [.postNextQuestion game.id, .getImage question.imageUrl] ++ tr, p)
        | (.panicked, tr) =>
          (.panicked, [.postNextQuestion game.id, .getImage question.imageUrl] ++ tr, p)
        | (.ok resp, tr) =>
          match correctSuggestion question suggestion resp with
          | none =>
            (.panicked, [.postNextQuestion game.id, .getImage question.imageUrl] ++ tr, p)
          | some correct =>
            (.ok resp.score, [.postNextQuestion game.id, .getImage question.imageUrl] ++ tr,
              ⟨storePut p.hashMap imageHash correct.value, p.training⟩)

/-! ### The game loop of main.rs -/

/-- Embeds the loop of main.rs lines 23-28: play the remaining questions
starting at index `i`, collecting scores in order.  `guess(..).unwrap()`
turns an error return into a panic, which ends the run. -/
def playQuestions (game : Game) (envs : Nat → GuessEnv) :
    Nat → Nat → Player → RunResult (List Int) × List Req × Player
  | 0, _, p => (.ok [], [], p)
  | n + 1, i, p =>
    match Player.guess p game (envs i) with
    | (.ok score, tr, p2) =>
      match playQuestions game envs n (i + 1) p2 with
      | (.ok scores, tr2, p3) => (.ok (score :: scores), tr ++ tr2, p3)
      | (.failed e, tr2, p3) => (.failed e, tr ++ tr2, p3)
      | (.panicked, tr2, p3) => (.panicked, tr ++ tr2, p3)
    | (.failed _, tr, p2) => (.panicked, tr, p2)
    | (.panicked, tr, p2) => (.panicked, tr, p2)

/-- Embeds main.rs lines 22-28: one full game of `game.nbQuestions`
sequential questions. -/
def playGame (p : Player) (game : Game) (envs : Nat → GuessEnv) :
    RunResult (List Int) × List Req × Player :=
  playQuestions game envs game.nbQuestions 0 p

/-- Recognizes the next-question POST in a request trace. -/
def isNextQuestionPost : Req → Bool
  | .postNextQuestion _ => true
  | _ => false

/-- Number of next-question POSTs in a trace: one per `Player::guess`
invocation that got past building the request, so it counts the
playQuestion invocations observably. -/
def countNext (tr : List Req) : Nat :=
  (tr.filter isNextQuestionPost).length

/-! ### Auxiliary definitions for statements and proofs -/

/-- Value of the decimal digits of `n` appended after an accumulated
high-order part `a` (used to specify the digit parser). -/
def shiftTen (a : Nat) (n : Nat) : Nat :=
  if n < 10 then a * 10 + n else shiftTen a (n / 10) * 10 + n % 10
termination_by n
decreasing_by exact Nat.div_lt_self (by omega) (by omega)

/-- Replaces the three HTTP status codes of a guess environment, leaving
the bodies and the hash function unchanged. -/
def GuessEnv.setStatuses (env : GuessEnv) (a b c : Nat) : GuessEnv :=
  { env with
      nextResponse := { env.nextResponse with status := a }
      imageResponse := { env.imageResponse with status := b }
      guessResponse := { env.guessResponse with status := c } }

/-- The fingerprint a guess environment produces, when its image body is
available. -/
def envHash (e : GuessEnv) : Option Nat :=
  e.imageResponse.body.map e.hashOne

/-- A guess environment whose three bodies parse, whose question has at
least one suggestion, and whose feedback, when it reports the guess
incorrect, declares a correct id that is among the question suggestions. -/
def envOk (e : GuessEnv) : Bool :=
  match e.nextResponse.body, e.imageResponse.body, e.guessResponse.body with
  | some q, some _, some fb =>
    !q.suggestions.isEmpty &&
      (fb.isCorrect || !(q.suggestions.filter (fun s => s.id == fb.correctSuggestionId)).isEmpty)
  | _, _, _ => false

/-- The fingerprint of a guess environment (if any) is absent from the
given store. -/
def freshFor (m : AnswerStore) (e : GuessEnv) : Bool :=
  match envHash e with
  | some h => (storeGet m h).isNone
  | none => true

/-! ### Concrete fixtures used by witnesses and counterexamples -/

/-- Four sample suggestions. -/
def exSuggestions : List Suggestion :=
  [⟨11, "Alice"⟩, ⟨12, "Bob"⟩, ⟨13, "Carol"⟩, ⟨14, "Dave"⟩]

/-- A sample question with the four sample suggestions. -/
def exQuestion : Question := ⟨7, "faces/img7", exSuggestions⟩

/-- A sample game of three questions. -/
def exGame : Game := ⟨"g1", 3⟩

/-- A player with an empty store, not in training mode. -/
def exPlayer : Player := ⟨[], false⟩

/-- Feedback reporting a correct guess. -/
def exFeedbackRight : GuessResponse := ⟨10, true, 11⟩

/-- Feedback reporting a wrong guess, declaring suggestion 13 correct. -/
def exFeedbackWrong : GuessResponse := ⟨0, false, 13⟩

/-- A guess environment whose next-question POST got a 500 status yet whose
body parses as a question; the image GET and the guess POST succeed. -/
def envBadStatus : GuessEnv :=
  ⟨fun _ => 42, ⟨500, some exQuestion⟩, ⟨206, some [1, 2, 3]⟩, ⟨200, some exFeedbackRight⟩⟩

/-- A guess environment with wholly successful statuses and a wrong guess. -/
def envWrongGuess : GuessEnv :=
  ⟨fun _ => 42, ⟨200, some exQuestion⟩, ⟨206, some [1, 2, 3]⟩, ⟨200, some exFeedbackWrong⟩⟩

/-- A per-question family of guess environments with pairwise distinct
fingerprints, every answer wrong. -/
def exEnvs : Nat → GuessEnv :=
  fun i => ⟨fun _ => i, ⟨200, some exQuestion⟩, ⟨206, some [9]⟩, ⟨200, some exFeedbackWrong⟩⟩

/-- A sample store with two entries whose second value needs escaping. -/
def exStore : AnswerStore := [(0, "a"), (12, "b\"c")]

/-- A login page without any input named `__RequestVerificationToken`. -/
def exPageNoToken : LoginPage := ⟨[⟨"UserName", some "u"⟩, ⟨"Password", none⟩]⟩

/-- A login page whose only token input lacks a value attribute. -/
def exPageNoValue : LoginPage := ⟨[⟨"__RequestVerificationToken", none⟩]⟩

/-- A login environment serving the token-free page with status 200. -/
def envNoToken : LoginEnv := ⟨⟨200, some exPageNoToken⟩, ⟨200, some ()⟩⟩

/-- A login environment serving the value-free token page with status 200. -/
def envNoValue : LoginEnv := ⟨⟨200, some exPageNoValue⟩, ⟨200, some ()⟩⟩

/-- A guess environment whose wrong-guess feedback declares a correct id
matching none of the four suggestions. -/
def envWrongGuessBadId : GuessEnv :=
  ⟨fun _ => 42, ⟨200, some exQuestion⟩, ⟨206, some [1, 2, 3]⟩, ⟨200, some ⟨0, false, 99⟩⟩⟩

/-- A player whose store maps the sample fingerprint to a name matching the
second sample suggestion. -/
def exPlayerBob : Player := ⟨[(42, "Bob")], false⟩

/-- A player whose store maps the sample fingerprint to a name matching no
sample suggestion. -/
def exPlayerZoe : Player := ⟨[(42, "Zoe")], false⟩

/-! ### Lemmas about the store -/

theorem storeGet_storePut_self (m : AnswerStore) (k : Nat) (v : String) :
    storeGet (storePut m k v) k = some v := by
  induction m with
  | nil => simp [storePut, storeGet]
  | cons p rest ih =>
    by_cases h : p.1 = k
    · simp [storePut, h, storeGet]
    · simp [storePut, h, storeGet, ih]

theorem storeGet_cons (p : Nat × String) (rest : AnswerStore) (k : Nat) :
    storeGet (p :: rest) k = if p.1 = k then some p.2 else storeGet rest k := rfl

theorem storePut_cons (p : Nat × String) (rest : AnswerStore) (k : Nat) (v : String) :
    storePut (p :: rest) k v =
      if p.1 = k then (k, v) :: rest else p :: storePut rest k v := rfl

theorem storeGet_storePut_ne (m : AnswerStore) (k k2 : Nat) (v : String)
    (hne : k2 ≠ k) : storeGet (storePut m k v) k2 = storeGet m k2 := by
  induction m with
  | nil =>
    simp only [storePut, storeGet, storeGet_cons]
    rw [if_neg (fun hh => hne hh.symm)]
  | cons p rest ih =>
    by_cases h : p.1 = k
    · rw [storePut_cons, if_pos h, storeGet_cons, storeGet_cons,
        if_neg (fun hh => hne hh.symm), if_neg (h ▸ fun hh => hne hh.symm)]
    · rw [storePut_cons, if_neg h, storeGet_cons, storeGet_cons, ih]

theorem storePut_absent (m : AnswerStore) (k : Nat) (v : String)
    (h : storeGet m k = none) : storePut m k v = m ++ [(k, v)] := by
  induction m with
  | nil => simp [storePut]
  | cons p rest ih =>
    by_cases hp : p.1 = k
    · rw [storeGet_cons, if_pos hp] at h
      exact absurd h (by simp)
    · rw [storeGet_cons, if_neg hp] at h
      rw [storePut_cons, if_neg hp, ih h, List.cons_append]

theorem storeGet_append_none (a b : AnswerStore) (k : Nat)
    (h : storeGet a k = none) : storeGet (a ++ b) k = storeGet b k := by
  induction a with
  | nil => simp
  | cons p rest ih =>
    by_cases hp : p.1 = k
    · rw [storeGet_cons, if_pos hp] at h
      exact absurd h (by simp)
    · rw [storeGet_cons, if_neg hp] at h
      rw [List.cons_append, storeGet_cons, if_neg hp]
      exact ih h

theorem foldl_storePut_fresh (l : List (Nat × String)) :
    ∀ acc : AnswerStore,
      (∀ k ∈ l.map Prod.fst, storeGet acc k = none) →
      (l.map Prod.fst).Nodup →
      l.foldl (fun m p => storePut m p.1 p.2) acc = acc ++ l := by
  induction l with
  | nil => intro acc _ _; simp
  | cons kv t ih =>
    intro acc hfresh hnodup
    have h1 : storeGet acc kv.1 = none := hfresh kv.1 (by simp)
    have hnotin : kv.1 ∉ t.map Prod.fst := by
      simp only [List.map_cons, List.nodup_cons] at hnodup
      exact hnodup.1
    have hnd : (t.map Prod.fst).Nodup := by
      simp only [List.map_cons, List.nodup_cons] at hnodup
      exact hnodup.2
    have hfresh2 : ∀ k ∈ t.map Prod.fst, storeGet (acc ++ [(kv.1, kv.2)]) k = none := by
      intro k hk
      have hne : kv.1 ≠ k := fun he => hnotin (he ▸ hk)
      rw [storeGet_append_none _ _ _ (hfresh k (by simp [hk]))]
      simp [storeGet, hne]
    calc (kv :: t).foldl (fun m p => storePut m p.1 p.2) acc
        = t.foldl (fun m p => storePut m p.1 p.2) (storePut acc kv.1 kv.2) := by
          simp
      _ = t.foldl (fun m p => storePut m p.1 p.2) (acc ++ [(kv.1, kv.2)]) := by
          rw [storePut_absent _ _ _ h1]
      _ = (acc ++ [(kv.1, kv.2)]) ++ t := ih _ hfresh2 hnd
      _ = acc ++ kv :: t := by simp

theorem storeOfList_eq_self (l : List (Nat × String))
    (h : (l.map Prod.fst).Nodup) : storeOfList l = l := by
  have := foldl_storePut_fresh l [] (by intro k _; rfl) h
  simpa [storeOfList] using this

/-! ### Lemmas about the RON codec -/

theorem stringMk_data (s : String) : String.mk s.data = s := rfl

theorem charOfNat_digit (m : Nat) (h : m < 10) :
    (Char.ofNat (48 + m)).isDigit = true ∧ (Char.ofNat (48 + m)).toNat = 48 + m := by
  interval_cases m <;> exact ⟨by decide, by decide⟩

theorem natDigitsAux_append (fuel : Nat) : ∀ (n : Nat) (t : List Char),
    natDigitsAux fuel n t = natDigitsAux fuel n [] ++ t := by
  induction fuel with
  | zero => intro n t; simp [natDigitsAux]
  | succ fuel ih =>
    intro n t
    by_cases h : n < 10
    · simp [natDigitsAux, h]
    · simp only [natDigitsAux, if_neg h]
      rw [ih (n / 10) (Char.ofNat (48 + n % 10) :: t),
        ih (n / 10) [Char.ofNat (48 + n % 10)]]
      simp

theorem shiftTen_zero (n : Nat) : shiftTen 0 n = n := by
  induction n using Nat.strong_induction_on with
  | _ n ih =>
    by_cases h : n < 10
    · rw [shiftTen, if_pos h]
      omega
    · rw [shiftTen, if_neg h, ih (n / 10) (Nat.div_lt_self (by omega) (by omega))]
      omega

theorem parseNatAux_cons (c : Char) (cs : List Char) (acc : Nat) :
    parseNatAux (c :: cs) acc =
      if c.isDigit then parseNatAux cs (acc * 10 + (c.toNat - 48))
      else (acc, c :: cs) := rfl

theorem parseNatAux_digits (fuel : Nat) : ∀ (n a : Nat) (tail : List Char),
    n < fuel →
    parseNatAux (natDigitsAux fuel n tail) a = parseNatAux tail (shiftTen a n) := by
  induction fuel with
  | zero => intro n a tail h; omega
  | succ fuel ih =>
    intro n a tail h
    have hd := charOfNat_digit (n % 10) (by omega)
    by_cases h10 : n < 10
    · simp only [natDigitsAux, if_pos h10]
      rw [parseNatAux_cons, if_pos hd.1, hd.2]
      congr 1
      rw [shiftTen, if_pos h10]
      omega
    · simp only [natDigitsAux, if_neg h10]
      rw [ih (n / 10) a (Char.ofNat (48 + n % 10) :: tail) (by omega)]
      rw [parseNatAux_cons, if_pos hd.1, hd.2]
      conv_rhs => rw [shiftTen]
      rw [if_neg h10]
      congr 1
      omega

theorem natDigitsAux_head (fuel : Nat) : ∀ (n : Nat) (t : List Char), n < fuel →
    ∃ c cs, natDigitsAux fuel n t = c :: cs ∧ c.isDigit = true := by
  induction fuel with
  | zero => intro n t h; omega
  | succ fuel ih =>
    intro n t h
    by_cases h10 : n < 10
    · exact ⟨Char.ofNat (48 + n % 10), t, by simp [natDigitsAux, h10],
        (charOfNat_digit (n % 10) (by omega)).1⟩
    · obtain ⟨c, cs, heq, hdig⟩ := ih (n / 10) (Char.ofNat (48 + n % 10) :: t) (by omega)
      exact ⟨c, cs, by simp only [natDigitsAux, if_neg h10]; exact heq, hdig⟩

theorem parseString_cons_cons (c d : Char) (cs2 : List Char) :
    parseString (c :: d :: cs2) =
      if c = '"' then some ([], d :: cs2)
      else if c = '\\' then
        if d = '"' ∨ d = '\\' then (parseString cs2).map (fun p => (d :: p.1, p.2))
        else none
      else (parseString (d :: cs2)).map (fun p => (c :: p.1, p.2)) := rfl

theorem parseString_escape (v : List Char) : ∀ rest : List Char,
    parseString (escapeList v ++ '"' :: rest) = some (v, rest) := by
  induction v with
  | nil =>
    intro rest
    cases rest with
    | nil => simp [escapeList, parseString]
    | cons a t => simp [escapeList, parseString_cons_cons]
  | cons c cs ih =>
    intro rest
    by_cases hc : c = '"' ∨ c = '\\'
    · simp only [escapeList, escapeChar, if_pos hc, List.cons_append, List.nil_append,
        List.append_assoc]
      rw [parseString_cons_cons, if_neg (by decide), if_pos rfl, if_pos hc, ih rest]
      simp
    · have hq : ¬c = '"' := fun h => hc (Or.inl h)
      have hb : ¬c = '\\' := fun h => hc (Or.inr h)
      simp only [escapeList, escapeChar, if_neg hc, List.singleton_append, List.cons_append,
        List.nil_append]
      cases hE : escapeList cs ++ '"' :: rest with
      | nil => exact absurd hE (by simp)
      | cons d t =>
        rw [parseString_cons_cons, if_neg hq, if_neg hb, ← hE, ih rest]
        simp

theorem encodeEntry_ne_nil (kv : Nat × String) : encodeEntry kv ≠ [] := by
  simp [encodeEntry]

theorem joinComma_length (es : List (List Char)) (h : ∀ e ∈ es, e ≠ []) :
    es.length ≤ (joinComma es).length := by
  induction es with
  | nil => simp [joinComma]
  | cons e es ih =>
    cases es with
    | nil =>
      have he : e ≠ [] := h e (by simp)
      cases e with
      | nil => exact absurd rfl he
      | cons a t => simp [joinComma]
    | cons e2 es2 =>
      have hsub : ∀ x ∈ e2 :: es2, x ≠ [] := by
        intro x hx
        exact h x (List.mem_cons_of_mem e hx)
      have h2 := ih hsub
      simp only [joinComma, List.length_append, List.length_cons] at h2 ⊢
      omega

theorem parseEntry_encode (kv : Nat × String) (rest : List Char) :
    parseEntry (encodeEntry kv ++ rest) = some (kv, rest) := by
  obtain ⟨k, v⟩ := kv
  have hT : encodeEntry (k, v) ++ rest
      = natDigitsAux (k + 1) k (':' :: '"' :: (escapeList v.data ++ '"' :: rest)) := by
    rw [natDigitsAux_append]
    simp [encodeEntry, natDigits, List.append_assoc]
  obtain ⟨c, cs, heq, hdig⟩ := natDigitsAux_head (k + 1) k
    (':' :: '"' :: (escapeList v.data ++ '"' :: rest)) (by omega)
  have hE2 : encodeEntry (k, v) ++ rest = c :: cs := hT.trans heq
  have hparse : parseNatAux (encodeEntry (k, v) ++ rest) 0
      = (k, ':' :: '"' :: (escapeList v.data ++ '"' :: rest)) := by
    rw [hT, parseNatAux_digits (k + 1) k 0 _ (by omega), shiftTen_zero, parseNatAux_cons,
      if_neg (by decide)]
  rw [hE2]
  simp only [parseEntry]
  rw [if_pos hdig, ← hE2, hparse]
  simp [parseString_escape, stringMk_data]

theorem parseEntries_encode (m : List (Nat × String)) : ∀ fuel : Nat,
    m ≠ [] → m.length ≤ fuel →
    parseEntries fuel (joinComma (m.map encodeEntry) ++ ['}']) = some m := by
  induction m with
  | nil => intro fuel h _; exact absurd rfl h
  | cons kv t ih =>
    intro fuel _ hlen
    obtain ⟨f, rfl⟩ : ∃ f, fuel = f + 1 := ⟨fuel - 1, by simp at hlen; omega⟩
    cases t with
    | nil =>
      simp only [List.map_cons, List.map_nil, joinComma, parseEntries]
      rw [parseEntry_encode kv ['}']]
      simp
    | cons kv2 t2 =>
      simp only [List.map_cons, joinComma, List.append_assoc, List.cons_append,
        List.singleton_append]
      simp only [parseEntries]
      rw [parseEntry_encode kv (',' :: (joinComma (encodeEntry kv2 :: t2.map encodeEntry) ++ ['}']))]
      have ht := ih f (by simp) (by simp at hlen ⊢; omega)
      simp only [List.map_cons] at ht
      simp [ht]

theorem ronDecode_ronEncode (m : List (Nat × String)) :
    ronDecode (ronEncode m) = some m := by
  cases m with
  | nil => rfl
  | cons kv t =>
    have hmem : ∀ e ∈ (kv :: t).map encodeEntry, e ≠ [] := by
      intro e he
      obtain ⟨x, _, rfl⟩ := List.mem_map.mp he
      exact encodeEntry_ne_nil x
    have hlenJ : (kv :: t).length ≤ (joinComma ((kv :: t).map encodeEntry)).length :=
      joinComma_length ((kv :: t).map encodeEntry) hmem |>.trans_eq' (by simp)
    have hne : joinComma ((kv :: t).map encodeEntry) ++ ['}'] ≠ ['}'] := by
      intro h
      have h3 := congrArg List.length h
      simp only [List.length_append, List.length_cons, List.length_nil] at h3
      simp only [List.length_cons] at hlenJ
      omega
    show ronDecode (String.mk (ronEncodeChars (kv :: t))) = some (kv :: t)
    simp only [ronDecode, ronEncodeChars]
    rw [if_neg hne]
    refine parseEntries_encode (kv :: t) _ (by simp) ?_
    simp only [List.length_append, List.length_cons, List.length_nil] at hlenJ ⊢
    omega

/-! ### Claim theorems: persistence -/

/-- Claim C3: serializing the Answer Store with save_hash_map and then
deserializing with the shared load logic yields a store containing exactly
the same fingerprint-to-name key/value pairs. -/
theorem save_load_round_trip (p : Player) (env : SaveEnv) (fs : FsState)
    (h1 : env.createFails = false) (h2 : env.writeFails = false)
    (h3 : (p.hashMap.map Prod.fst).Nodup) :
    loadStore (Player.save_hash_map p env fs).2
      = (.ok p.hashMap, (Player.save_hash_map p env fs).2) := by
  have hsave : (Player.save_hash_map p env fs).2 = ⟨some (ronEncode p.hashMap)⟩ := by
    simp [Player.save_hash_map, h1, h2]
  rw [hsave]
  simp [loadStore, ronDecode_ronEncode, storeOfList_eq_self p.hashMap h3]

/-- Witness for C3 at a concrete two-entry store whose second value needs
escaping. -/
theorem save_load_round_trip_witness :
    loadStore (Player.save_hash_map ⟨exStore, false⟩ ⟨false, false, 0⟩ ⟨some "old"⟩).2
      = (.ok exStore,
          (Player.save_hash_map ⟨exStore, false⟩ ⟨false, false, 0⟩ ⟨some "old"⟩).2) :=
  save_load_round_trip ⟨exStore, false⟩ ⟨false, false, 0⟩ ⟨some "old"⟩ rfl rfl (by decide)

/-- Claim C8: loading returns an empty store when the persisted file is
absent, fails with the corrupt-storage error when the file is present but
unparseable, and never alters the persisted file. -/
theorem load_semantics (fs : FsState) :
    (fs.file = none → loadStore fs = (.ok [], fs))
    ∧ (∀ s, fs.file = some s → ronDecode s = none →
        loadStore fs = (.failed .storageCorrupt, fs))
    ∧ (loadStore fs).2 = fs := by
  refine ⟨?_, ?_, ?_⟩
  · intro h; simp [loadStore, h]
  · intro s hs hd; simp [loadStore, hs, hd]
  · cases h : fs.file with
    | none => simp [loadStore, h]
    | some s => cases hd : ronDecode s <;> simp [loadStore, h, hd]

/-- Witness for C8: an absent file loads as the empty store; an unparseable
file fails with the corrupt-storage error. -/
theorem load_semantics_witness :
    loadStore ⟨none⟩ = (.ok [], ⟨none⟩)
    ∧ loadStore ⟨some "garbage"⟩ = (.failed .storageCorrupt, ⟨some "garbage"⟩) :=
  ⟨(load_semantics ⟨none⟩).1 rfl,
   (load_semantics ⟨some "garbage"⟩).2.1 "garbage" rfl (by decide)⟩

/-- Counterexample to claim C5: with previous persisted contents "old", a
save whose File create succeeds but whose write fails reports the write
error, yet the file is no longer "old" (it was truncated), so the
previously persisted table is not left unchanged. -/
theorem save_not_atomic_counterexample :
    (Player.save_hash_map ⟨[(2, "b")], false⟩ ⟨false, true, 0⟩ ⟨some "old"⟩).1
        = .failed .storageWrite
    ∧ (Player.save_hash_map ⟨[(2, "b")], false⟩ ⟨false, true, 0⟩ ⟨some "old"⟩).2
        ≠ ⟨some "old"⟩ := by
  exact ⟨rfl, by decide⟩

/-- Claim C5 amended: save_hash_map serializes the full table but replaces
the persisted file by truncating then writing, not atomically: only a
failure of the create step leaves the previous file unchanged, while a
write failure after a successful create leaves the file holding a proper
prefix of the new serialization (possibly empty), and a full success leaves
the serialization of the current table. -/
theorem save_hash_map_behavior (p : Player) (env : SaveEnv) (fs : FsState) :
    (env.createFails = true →
      Player.save_hash_map p env fs = (.failed .storageWrite, fs))
    ∧ (env.createFails = false → env.writeFails = true →
      Player.save_hash_map p env fs
        = (.failed .storageWrite,
            ⟨some (String.mk ((ronEncodeChars p.hashMap).take env.writtenBytes))⟩))
    ∧ (env.createFails = false → env.writeFails = false →
      Player.save_hash_map p env fs = (.ok (), ⟨some (ronEncode p.hashMap)⟩)) := by
  refine ⟨?_, ?_, ?_⟩
  · intro h; simp [Player.save_hash_map, h]
  · intro h1 h2; simp [Player.save_hash_map, h1, h2]
  · intro h1 h2; simp [Player.save_hash_map, h1, h2]

/-- Witness for the amended C5 at concrete failure schedules. -/
theorem save_hash_map_behavior_witness :
    Player.save_hash_map ⟨[(2, "b")], false⟩ ⟨true, false, 0⟩ ⟨some "old"⟩
        = (.failed .storageWrite, ⟨some "old"⟩)
    ∧ Player.save_hash_map ⟨[(2, "b")], false⟩ ⟨false, true, 1⟩ ⟨some "old"⟩
        = (.failed .storageWrite, ⟨some (String.mk ((ronEncodeChars [(2, "b")]).take 1))⟩)
    ∧ Player.save_hash_map ⟨[(2, "b")], false⟩ ⟨false, false, 0⟩ ⟨some "old"⟩
        = (.ok (), ⟨some (ronEncode [(2, "b")])⟩) :=
  ⟨(save_hash_map_behavior ⟨[(2, "b")], false⟩ ⟨true, false, 0⟩ ⟨some "old"⟩).1 rfl,
   (save_hash_map_behavior ⟨[(2, "b")], false⟩ ⟨false, true, 1⟩ ⟨some "old"⟩).2.1 rfl rfl,
   (save_hash_map_behavior ⟨[(2, "b")], false⟩ ⟨false, false, 0⟩ ⟨some "old"⟩).2.2 rfl rfl⟩

/-! ### Claim theorems: login -/

/-- Claim C6: a login-page response (with successful GET status) containing
no input named __RequestVerificationToken, or whose first such input lacks
a value attribute, makes login fail with the respective token error, having
issued only the GET: no login POST is attempted, and the player state is
returned unchanged. -/
theorem login_token_missing (p : Player) (u pw : String) (env : LoginEnv) (page : LoginPage)
    (hs : isSuccessStatus env.getResponse.status = true)
    (hb : env.getResponse.body = some page) :
    ((page.inputs.filter (fun i => i.name == tokenField)).head? = none →
      Player.login p u pw env = (.failed .tokenElementNotFound, [.getLogin], p))
    ∧ (∀ el, (page.inputs.filter (fun i => i.name == tokenField)).head? = some el →
        el.value = none →
        Player.login p u pw env = (.failed .tokenValueNotFound, [.getLogin], p)) := by
  constructor
  · intro h; simp [Player.login, hs, hb, h]
  · intro el h hv; simp [Player.login, hs, hb, h, hv]

/-- Witness for C6 on two concrete login pages. -/
theorem login_token_missing_witness :
    Player.login exPlayer "u" "pw" envNoToken
        = (.failed .tokenElementNotFound, [.getLogin], exPlayer)
    ∧ Player.login exPlayer "u" "pw" envNoValue
        = (.failed .tokenValueNotFound, [.getLogin], exPlayer) :=
  ⟨(login_token_missing exPlayer "u" "pw" envNoToken exPageNoToken rfl rfl).1 (by decide),
   (login_token_missing exPlayer "u" "pw" envNoValue exPageNoValue rfl rfl).2
     ⟨tokenField, none⟩ (by decide) rfl⟩

/-! ### Claim theorems: playing one question -/

/-- Claim C2: when the image fingerprint is absent from the Answer Store,
guess selects the first of the four suggestions and submits it as its
guess. -/
theorem cold_start_first_suggestion (p : Player) (game : Game) (env : GuessEnv)
    (q : Question) (img : List Nat)
    (hq : env.nextResponse.body = some q)
    (himg : env.imageResponse.body = some img)
    (hlen : q.suggestions.length = 4)
    (habsent : storeGet p.hashMap (env.hashOne img) = none) :
    ∃ g, q.suggestions.head? = some g
      ∧ selectSuggestion p.hashMap (env.hashOne img) q = some g
      ∧ (Player.guess p game env).2.1
          = [.postNextQuestion game.id, .getImage q.imageUrl, .postGuess q.id g.id] := by
  cases hqs : q.suggestions with
  | nil => rw [hqs] at hlen; simp at hlen
  | cons g t =>
    have hsel : selectSuggestion p.hashMap (env.hashOne img) q = some g := by
      simp [selectSuggestion, habsent, hqs]
    refine ⟨g, by simp, hsel, ?_⟩
    cases hg : env.guessResponse.body with
    | none => simp [Player.guess, hq, himg, hsel, Player.respond, hg]
    | some fb =>
      cases hcor : correctSuggestion q g fb with
      | none => simp [Player.guess, hq, himg, hsel, Player.respond, hg, hcor]
      | some c => simp [Player.guess, hq, himg, hsel, Player.respond, hg, hcor]

/-- Witness for C2: with an empty store, the first sample suggestion is
selected and submitted. -/
theorem cold_start_first_suggestion_witness :
    ∃ g, exQuestion.suggestions.head? = some g
      ∧ selectSuggestion exPlayer.hashMap (envWrongGuess.hashOne [1, 2, 3]) exQuestion = some g
      ∧ (Player.guess exPlayer exGame envWrongGuess).2.1
          = [.postNextQuestion exGame.id, .getImage exQuestion.imageUrl,
              .postGuess exQuestion.id g.id] :=
  cold_start_first_suggestion exPlayer exGame envWrongGuess exQuestion [1, 2, 3]
    rfl rfl rfl rfl

/-- Claim C7: when the fingerprint is found but the stored name matches no
suggestion of the current question, guess panics before submitting any
guess (no fallback); when the stored name does match, the first matching
suggestion is selected and submitted. -/
theorem stored_answer_selection (p : Player) (game : Game) (env : GuessEnv)
    (q : Question) (img : List Nat) (name : String)
    (hq : env.nextResponse.body = some q)
    (himg : env.imageResponse.body = some img)
    (hfound : storeGet p.hashMap (env.hashOne img) = some name) :
    ((∀ s ∈ q.suggestions, s.value ≠ name) →
      Player.guess p game env
        = (.panicked, [.postNextQuestion game.id, .getImage q.imageUrl], p))
    ∧ (∀ g, (q.suggestions.filter (fun s => s.value == name)).head? = some g →
        selectSuggestion p.hashMap (env.hashOne img) q = some g
        ∧ (Player.guess p game env).2.1
            = [.postNextQuestion game.id, .getImage q.imageUrl, .postGuess q.id g.id]) := by
  constructor
  · intro hnone
    have hfil : q.suggestions.filter (fun s => s.value == name) = [] := by
      apply List.filter_eq_nil_iff.mpr
      intro s hs
      simpa using hnone s hs
    have hsel : selectSuggestion p.hashMap (env.hashOne img) q = none := by
      simp [selectSuggestion, hfound, hfil]
    simp [Player.guess, hq, himg, hsel]
  · intro g hg
    have hsel : selectSuggestion p.hashMap (env.hashOne img) q = some g := by
      simp [selectSuggestion, hfound, hg]
    refine ⟨hsel, ?_⟩
    cases hgr : env.guessResponse.body with
    | none => simp [Player.guess, hq, himg, hsel, Player.respond, hgr]
    | some fb =>
      cases hcor : correctSuggestion q g fb with
      | none => simp [Player.guess, hq, himg, hsel, Player.respond, hgr, hcor]
      | some c => simp [Player.guess, hq, himg, hsel, Player.respond, hgr, hcor]

/-- Witness for C7: a stored name matching no suggestion panics with no
guess POST; a stored name matching the second suggestion selects it. -/
theorem stored_answer_selection_witness :
    Player.guess exPlayerZoe exGame envWrongGuess
      = (.panicked, [.postNextQuestion exGame.id, .getImage exQuestion.imageUrl], exPlayerZoe)
    ∧ (selectSuggestion exPlayerBob.hashMap 42 exQuestion = some ⟨12, "Bob"⟩
        ∧ (Player.guess exPlayerBob exGame envWrongGuess).2.1
            = [.postNextQuestion exGame.id, .getImage exQuestion.imageUrl,
                .postGuess exQuestion.id 12]) :=
  ⟨(stored_answer_selection exPlayerZoe exGame envWrongGuess exQuestion [1, 2, 3] "Zoe"
      rfl rfl rfl).1 (by decide),
   (stored_answer_selection exPlayerBob exGame envWrongGuess exQuestion [1, 2, 3] "Bob"
      rfl rfl rfl).2 ⟨12, "Bob"⟩ (by decide)⟩

/-- Claim C10: on feedback reporting the guess incorrect, guess panics when
the declared correct id matches none of the suggestions, and completes with
the store updated exactly when a suggestion carries that id. -/
theorem wrong_guess_requires_declared_id (p : Player) (game : Game) (env : GuessEnv)
    (q : Question) (img : List Nat) (fb : GuessResponse) (g : Suggestion)
    (hq : env.nextResponse.body = some q)
    (himg : env.imageResponse.body = some img)
    (hfb : env.guessResponse.body = some fb)
    (hsel : selectSuggestion p.hashMap (env.hashOne img) q = some g)
    (hic : fb.isCorrect = false) :
    ((∀ s ∈ q.suggestions, s.id ≠ fb.correctSuggestionId) →
      Player.guess p game env
        = (.panicked,
            [.postNextQuestion game.id, .getImage q.imageUrl, .postGuess q.id g.id], p))
    ∧ (∀ c, (q.suggestions.filter (fun s => s.id == fb.correctSuggestionId)).head? = some c →
        Player.guess p game env
          = (.ok fb.score,
              [.postNextQuestion game.id, .getImage q.imageUrl, .postGuess q.id g.id],
              ⟨storePut p.hashMap (env.hashOne img) c.value, p.training⟩)) := by
  constructor
  · intro hnone
    have hfil : q.suggestions.filter (fun s => s.id == fb.correctSuggestionId) = [] := by
      apply List.filter_eq_nil_iff.mpr
      intro s hs
      simpa using hnone s hs
    have hcor : correctSuggestion q g fb = none := by
      simp [correctSuggestion, hic, hfil]
    simp [Player.guess, hq, himg, hsel, Player.respond, hfb, hcor]
  · intro c hc
    have hcor : correctSuggestion q g fb = some c := by
      simp [correctSuggestion, hic, hc]
    simp [Player.guess, hq, himg, hsel, Player.respond, hfb, hcor]

/-- Witness for C10: an unmatched declared id panics after the guess POST;
a matched one completes, storing the declared correct name. -/
theorem wrong_guess_requires_declared_id_witness :
    Player.guess exPlayer exGame envWrongGuessBadId
      = (.panicked,
          [.postNextQuestion exGame.id, .getImage exQuestion.imageUrl,
            .postGuess exQuestion.id 11], exPlayer)
    ∧ Player.guess exPlayer exGame envWrongGuess
      = (.ok 0,
          [.postNextQuestion exGame.id, .getImage exQuestion.imageUrl,
            .postGuess exQuestion.id 11],
          ⟨[(42, "Carol")], false⟩) :=
  ⟨(wrong_guess_requires_declared_id exPlayer exGame envWrongGuessBadId exQuestion [1, 2, 3]
      ⟨0, false, 99⟩ ⟨11, "Alice"⟩ rfl rfl rfl rfl rfl).1 (by decide),
   (wrong_guess_requires_declared_id exPlayer exGame envWrongGuess exQuestion [1, 2, 3]
      exFeedbackWrong ⟨11, "Alice"⟩ rfl rfl rfl rfl rfl).2 ⟨13, "Carol"⟩ (by decide)⟩

/-- Claim C1: whenever guess returns successfully, the store afterwards maps
the image fingerprint to the ground-truth correct name: the guessed name
when the feedback says correct, else the name of the suggestion whose id is
the declared correct id; the insertion happens whether or not the guess was
right. -/
theorem guess_stores_truth (p : Player) (game : Game) (env : GuessEnv)
    (q : Question) (img : List Nat) (fb : GuessResponse) (g c : Suggestion)
    (s : Int) (tr : List Req) (p2 : Player)
    (hq : env.nextResponse.body = some q)
    (himg : env.imageResponse.body = some img)
    (hfb : env.guessResponse.body = some fb)
    (hsel : selectSuggestion p.hashMap (env.hashOne img) q = some g)
    (hcor : correctSuggestion q g fb = some c)
    (hrun : Player.guess p game env = (.ok s, tr, p2)) :
    storeGet p2.hashMap (env.hashOne img) = some c.value
    ∧ (fb.isCorrect = true → c = g)
    ∧ (fb.isCorrect = false → c ∈ q.suggestions ∧ c.id = fb.correctSuggestionId) := by
  have hguess : Player.guess p game env
      = (.ok fb.score,
          [.postNextQuestion game.id, .getImage q.imageUrl, .postGuess q.id g.id],
          ⟨storePut p.hashMap (env.hashOne img) c.value, p.training⟩) := by
    simp [Player.guess, hq, himg, hsel, Player.respond, hfb, hcor]
  rw [hguess] at hrun
  have hp2 : p2 = ⟨storePut p.hashMap (env.hashOne img) c.value, p.training⟩ := by
    have h2 := congrArg (fun x => x.2.2) hrun
    simpa using h2.symm
  refine ⟨?_, ?_, ?_⟩
  · rw [hp2]
    exact storeGet_storePut_self _ _ _
  · intro hicr
    simp [correctSuggestion, hicr] at hcor
    exact hcor.symm
  · intro hicf
    simp [correctSuggestion, hicf] at hcor
    refine ⟨List.mem_of_find?_eq_some hcor, ?_⟩
    have h4 := List.find?_some hcor
    simpa using h4

/-- Witness for C1: a wrong guess ends with the store mapping the
fingerprint to the name of the suggestion carrying the declared correct id. -/
theorem guess_stores_truth_witness :
    storeGet ([(42, "Carol")] : AnswerStore) 42 = some "Carol"
    ∧ (exFeedbackWrong.isCorrect = true →
        (⟨13, "Carol"⟩ : Suggestion) = ⟨11, "Alice"⟩)
    ∧ (exFeedbackWrong.isCorrect = false →
        (⟨13, "Carol"⟩ : Suggestion) ∈ exQuestion.suggestions
          ∧ (⟨13, "Carol"⟩ : Suggestion).id = exFeedbackWrong.correctSuggestionId) :=
  guess_stores_truth exPlayer exGame envWrongGuess exQuestion [1, 2, 3] exFeedbackWrong
    ⟨11, "Alice"⟩ ⟨13, "Carol"⟩ 0
    [.postNextQuestion exGame.id, .getImage exQuestion.imageUrl, .postGuess exQuestion.id 11]
    ⟨[(42, "Carol")], false⟩ rfl rfl rfl rfl (by decide) (by decide)

/-! ### Claim theorems: HTTP status handling -/

/-- Counterexample to claim C4: the next-question POST inside guess got a
non-success 500 status, yet guess proceeds and returns the score instead of
an error, because neither guess nor respond checks the HTTP status. -/
theorem status_ignored_counterexample :
    isSuccessStatus envBadStatus.nextResponse.status = false
    ∧ (Player.guess exPlayer exGame envBadStatus).1 = .ok 10 := by
  exact ⟨rfl, by decide⟩

/-- Claim C4 amended: start_game (like login) fails with the status error
on any non-success response status, but the next-question POST, the image
GET and the guess POST inside guess never consult the HTTP status: the
outcome of guess is invariant under arbitrary changes of the three status
codes, so those calls fail only when a body fails to parse. -/
theorem http_status_handling :
    (∀ (p : Player) (env : StartGameEnv), isSuccessStatus env.response.status = false →
      Player.start_game p env
        = (.failed (.httpError env.response.status), [.postStartGame p.training], p))
    ∧ (∀ (p : Player) (game : Game) (env : GuessEnv) (a b c : Nat),
        Player.guess p game (env.setStatuses a b c) = Player.guess p game env) := by
  constructor
  · intro p env h
    simp [Player.start_game, h]
  · intro p game env a b c
    rcases env with ⟨h, ⟨s1, b1⟩, ⟨s2, b2⟩, ⟨s3, b3⟩⟩
    rfl

/-- Witness for the amended C4: a 500 on start_game fails with the status
error, while scrambling all three statuses of a guess environment leaves
the outcome of guess unchanged. -/
theorem http_status_handling_witness :
    Player.start_game exPlayer ⟨⟨500, some exGame⟩⟩
      = (.failed (.httpError 500), [.postStartGame false], exPlayer)
    ∧ Player.guess exPlayer exGame (envWrongGuess.setStatuses 500 404 503)
      = Player.guess exPlayer exGame envWrongGuess :=
  ⟨http_status_handling.1 exPlayer ⟨⟨500, some exGame⟩⟩ rfl,
   http_status_handling.2 exPlayer exGame envWrongGuess 500 404 503⟩

/-! ### Claim theorems: the game loop -/

theorem countNext_append (a b : List Req) :
    countNext (a ++ b) = countNext a + countNext b := by
  simp [countNext, List.filter_append]

theorem playQuestions_all_ok (game : Game) (envs : Nat → GuessEnv) :
    ∀ (k i : Nat) (p : Player),
      (∀ j, i ≤ j → j < i + k → envOk (envs j) = true) →
      (∀ j, i ≤ j → j < i + k → freshFor p.hashMap (envs j) = true) →
      (∀ j j2, i ≤ j → j < i + k → i ≤ j2 → j2 < i + k → j ≠ j2 →
        envHash (envs j) ≠ envHash (envs j2)) →
      ∃ scores tr p2, playQuestions game envs k i p = (.ok scores, tr, p2)
        ∧ scores.length = k ∧ countNext tr = k := by
  intro k
  induction k with
  | zero =>
    intro i p _ _ _
    exact ⟨[], [], p, rfl, rfl, rfl⟩
  | succ k ih =>
    intro i p hok hfresh hdist
    have hoki : envOk (envs i) = true := hok i (Nat.le_refl i) (by omega)
    cases hq : (envs i).nextResponse.body with
    | none => rw [envOk, hq] at hoki; simp at hoki
    | some q =>
    cases himg : (envs i).imageResponse.body with
    | none => rw [envOk, hq, himg] at hoki; simp at hoki
    | some img =>
    cases hfb : (envs i).guessResponse.body with
    | none => rw [envOk, hq, himg, hfb] at hoki; simp at hoki
    | some fb =>
    rw [envOk, hq, himg, hfb] at hoki
    simp only [Bool.and_eq_true, Bool.not_eq_true', Bool.or_eq_true] at hoki
    obtain ⟨hqne, hcorid⟩ := hoki
    have hhash : envHash (envs i) = some ((envs i).hashOne img) := by
      simp [envHash, himg]
    have hfr : storeGet p.hashMap ((envs i).hashOne img) = none := by
      have h1 := hfresh i (Nat.le_refl i) (by omega)
      rw [freshFor, hhash] at h1
      simpa [Option.isNone_iff_eq_none] using h1
    obtain ⟨g, t, hqs⟩ : ∃ g t, q.suggestions = g :: t := by
      cases hqs : q.suggestions with
      | nil => rw [hqs] at hqne; simp at hqne
      | cons g t => exact ⟨g, t, rfl⟩
    have hsel : selectSuggestion p.hashMap ((envs i).hashOne img) q = some g := by
      simp [selectSuggestion, hfr, hqs]
    obtain ⟨c, hcor⟩ : ∃ c, correctSuggestion q g fb = some c := by
      cases hic : fb.isCorrect with
      | true => exact ⟨g, by simp [correctSuggestion, hic]⟩
      | false =>
        have hne : q.suggestions.filter (fun s => s.id == fb.correctSuggestionId) ≠ [] := by
          rcases hcorid with h | h
          · rw [hic] at h; simp at h
          · simpa [List.isEmpty_iff] using h
        cases hfl : q.suggestions.filter (fun s => s.id == fb.correctSuggestionId) with
        | nil => exact absurd hfl hne
        | cons c cs => exact ⟨c, by simp [correctSuggestion, hic, hfl]⟩
    have hguess : Player.guess p game (envs i)
        = (.ok fb.score,
            [.postNextQuestion game.id, .getImage q.imageUrl, .postGuess q.id g.id],
            ⟨storePut p.hashMap ((envs i).hashOne img) c.value, p.training⟩) := by
      simp [Player.guess, hq, himg, hsel, Player.respond, hfb, hcor]
    have hok2 : ∀ j, i + 1 ≤ j → j < (i + 1) + k → envOk (envs j) = true := by
      intro j h1 h2
      exact hok j (by omega) (by omega)
    have hfresh2 : ∀ j, i + 1 ≤ j → j < (i + 1) + k →
        freshFor (storePut p.hashMap ((envs i).hashOne img) c.value) (envs j) = true := by
      intro j h1 h2
      cases hh : envHash (envs j) with
      | none => simp [freshFor, hh]
      | some hv =>
        have hne : hv ≠ (envs i).hashOne img := by
          intro he
          have hd := hdist j i (by omega) (by omega) (Nat.le_refl i) (by omega) (by omega)
          rw [hh, hhash, he] at hd
          exact hd rfl
        have h3 := hfresh j (by omega) (by omega)
        simp only [freshFor, hh] at h3 ⊢
        rw [storeGet_storePut_ne _ _ _ _ hne]
        exact h3
    have hdist2 : ∀ j j2, i + 1 ≤ j → j < (i + 1) + k → i + 1 ≤ j2 → j2 < (i + 1) + k →
        j ≠ j2 → envHash (envs j) ≠ envHash (envs j2) := by
      intro j j2 a b c2 d e
      exact hdist j j2 (by omega) (by omega) (by omega) (by omega) e
    obtain ⟨scores, tr2, p3, heq, hlen, hcnt⟩ :=
      ih (i + 1) ⟨storePut p.hashMap ((envs i).hashOne img) c.value, p.training⟩
        hok2 hfresh2 hdist2
    refine ⟨fb.score :: scores,
      [Req.postNextQuestion game.id, Req.getImage q.imageUrl, Req.postGuess q.id g.id] ++ tr2,
      p3, ?_, by simp [hlen], ?_⟩
    · simp only [playQuestions]
      rw [hguess]
      simp [heq]
    · rw [countNext_append, hcnt]
      simp [countNext, isNextQuestionPost]
      omega

/-- Claim C9: the main loop invokes guess once per question, sequentially,
for exactly game.nbQuestions iterations, producing an ordered score list of
length game.nbQuestions; a wrong answer never terminates the loop early
(the hypotheses allow every answer to be wrong). -/
theorem playGame_scores (p : Player) (game : Game) (envs : Nat → GuessEnv)
    (hok : ∀ j, j < game.nbQuestions → envOk (envs j) = true)
    (hfresh : ∀ j, j < game.nbQuestions → freshFor p.hashMap (envs j) = true)
    (hdist : ∀ j j2, j < game.nbQuestions → j2 < game.nbQuestions → j ≠ j2 →
      envHash (envs j) ≠ envHash (envs j2)) :
    ∃ scores tr p2, playGame p game envs = (.ok scores, tr, p2)
      ∧ scores.length = game.nbQuestions ∧ countNext tr = game.nbQuestions := by
  have h := playQuestions_all_ok game envs game.nbQuestions 0 p
    (by intro j h1 h2; exact hok j (by omega))
    (by intro j h1 h2; exact hfresh j (by omega))
    (by intro j j2 a b c2 d e; exact hdist j j2 (by omega) (by omega) e)
  simpa [playGame] using h

/-- Witness for C9: three questions, pairwise distinct fingerprints, every
answer wrong, yet the loop returns three scores and posts three
next-question requests. -/
theorem playGame_scores_witness :
    ∃ scores tr p2, playGame exPlayer exGame exEnvs = (.ok scores, tr, p2)
      ∧ scores.length = exGame.nbQuestions ∧ countNext tr = exGame.nbQuestions :=
  playGame_scores exPlayer exGame exEnvs (by decide) (by decide)
    (by
      intro j j2 _ _ hne heq
      have h2 : (some j : Option Nat) = some j2 := heq
      exact hne (Option.some.inj h2))
